import Mathlib

/-
Verification of the logo-creator prompt-generation and batch-orchestration
pipeline.  The TypeScript sources are shallowly embedded as Lean functions:

  * `src/lib/logo-prompt-generator.ts` (and the variant shipped with the
    hook build): `extractLetters`, `selectWordmarkAdjective`,
    `parseConceptStyles`, `generateWordmarkPrompt`,
    `generateLiteralMarkPrompt`, `generateDerivedLettermarkPrompt`,
    `generateLogoPrompt`.
  * `src/hooks/use-logo-creation.ts`: the `generateLogos` orchestrator,
    modelled as a pure function of an environment that fixes the outcome of
    every network call (success payload, HTTP-level failure, or abort).
  * the API route's `handleBatchGeneration`, modelled as a pure function of
    the per-request image-generation outcomes.

JavaScript string primitives used by the sources (`trim`, `split(/\s+/)`,
`split(",")`, `toLowerCase`, `includes`, `charAt(0).toUpperCase()`,
`endsWith`, `Array.prototype.findIndex`) are modelled explicitly below on
`List Char` / `String`; all inputs of interest are ASCII, where Lean's
`Char.toLower`/`Char.toUpper`/`Char.isWhitespace` agree with JavaScript.
-/

namespace LogoCreator

/-! ## JavaScript string primitives -/

/-- JS `String.prototype.trim`, leading part: drop whitespace. -/
def dropWs (l : List Char) : List Char := l.dropWhile Char.isWhitespace

/-- JS `String.prototype.trim` on the character list: whitespace removed from
both ends. -/
def trimChars (l : List Char) : List Char :=
  ((l.dropWhile Char.isWhitespace).reverse.dropWhile Char.isWhitespace).reverse

/-- JS `String.prototype.trim`. -/
def jsTrim (s : String) : String := String.mk (trimChars s.data)

/-- Tokenizer behind `split(/\s+/)`: maximal runs of non-whitespace
characters.  `acc` holds the (reversed) characters of the word being read. -/
def wordsAux (acc : List Char) : List Char → List (List Char)
  | [] => if acc.isEmpty then [] else [acc.reverse]
  | c :: r =>
    if c.isWhitespace then
      if acc.isEmpty then wordsAux [] r else acc.reverse :: wordsAux [] r
    else
      wordsAux (c :: acc) r

/-- JS `s.split(/\s+/)` for a string `s` that carries no leading whitespace
(the sources only ever apply it right after `trim()`).  On the empty string
JS yields `[""]`. -/
def jsSplitWs (s : String) : List String :=
  if s.data.isEmpty then [""] else (wordsAux [] s.data).map String.mk

/-- JS `s.split(",")`: split at every comma, keeping empty fragments. -/
def splitCommaChars : List Char → List (List Char)
  | [] => [[]]
  | c :: r =>
    if c = ',' then [] :: splitCommaChars r
    else
      match splitCommaChars r with
      | [] => [[c]]
      | h :: t => (c :: h) :: t

/-- JS `s.split(",")`. -/
def jsSplitComma (s : String) : List String :=
  (splitCommaChars s.data).map String.mk

/-- JS `String.prototype.toLowerCase` (ASCII range). -/
def jsToLower (s : String) : String := String.mk (s.data.map Char.toLower)

/-- Substring search on character lists (JS `String.prototype.includes`). -/
def listContains (hay needle : List Char) : Bool :=
  needle.isPrefixOf hay ||
    match hay with
    | [] => false
    | _ :: t => listContains t needle

/-- JS `hay.includes(needle)`. -/
def strIncludes (hay needle : String) : Bool := listContains hay.data needle.data

/-- JS `w.charAt(0).toUpperCase()`: empty string stays empty, otherwise the
first character uppercased (ASCII). -/
def jsCharAt0Upper (w : String) : String :=
  match w.data with
  | [] => ""
  | c :: _ => String.mk [c.toUpper]

/-- JS `Array.prototype.findIndex` (with `-1` rendered as `none`). -/
def jsFindIndex (p : α → Bool) : List α → Option Nat
  | [] => none
  | x :: r => if p x then some 0 else (jsFindIndex p r).map (· + 1)

/-! ## Data model (`types/logo-api.ts`) -/

inductive LogoArchetype where
  | literal
  | wordmark
  | lettermarkEnclosed
  | lettermarkDerived
  deriving DecidableEq, Repr

inductive ColorTreatment where
  | black
  | brandColors
  | darkBg
  deriving DecidableEq, Repr

inductive GenStatus where
  | success
  | error
  deriving DecidableEq, Repr

structure BrandColor where
  name : String
  hex : String
  deriving DecidableEq, Repr

structure LogoConcept where
  id : String
  visualObject : String
  visualStyle : String
  primaryColor : BrandColor
  secondaryColor : Option BrandColor
  deriving DecidableEq, Repr

structure LogoGenerationRequest where
  id : String
  type : LogoArchetype
  prompt : String
  aspectRatio : String
  previousImageUrl : Option String
  deriving DecidableEq, Repr

structure LogoGenerationResult where
  id : String
  type : LogoArchetype
  url : String
  prompt : String
  status : GenStatus
  colorTreatment : Option ColorTreatment
  error : Option String
  deriving DecidableEq, Repr

/-! ## Prompt generator (`logo-prompt-generator.ts`, hook-build variant)

Literal-mark modes are strings in the source (a TypeScript string-literal
union, which casts can circumvent — the orchestrator casts a regex capture
into it), so they are modelled as `String` here and the `switch` in
`generateLiteralMarkPrompt` keeps its reachable `default` branch. -/

/-- `extractLetters` from `logo-prompt-generator.ts` (identical in both
copies of the file): split the trimmed company name on whitespace runs and
take the uppercased first character of the first word, or of the first two
words when there are at least two. -/
def extractLetters (companyName : String) : String :=
  let words := jsSplitWs (jsTrim companyName)
  if words.length = 1 then
    jsCharAt0Upper (words.getD 0 "")
  else if words.length ≥ 2 then
    jsCharAt0Upper (words.getD 0 "") ++ jsCharAt0Upper (words.getD 1 "")
  else
    jsCharAt0Upper (words.getD 0 "")

/-- `selectWordmarkAdjective` (identical in both copies): first-match keyword
scan over the lowercased concept style. -/
def selectWordmarkAdjective (conceptStyle : String) : String :=
  let style := jsToLower conceptStyle
  if strIncludes style "script" || strIncludes style "calligraph" || strIncludes style "flowing" then
    "Script/Calligraphic"
  else if strIncludes style "handwritten" || strIncludes style "elegant" || strIncludes style "organic" then
    "Handwritten elegance"
  else if strIncludes style "decorative" || strIncludes style "ornate" then
    "Decorative"
  else if strIncludes style "industrial" || strIncludes style "military" || strIncludes style "stencil" then
    "Stencil - Military/industrial cutout"
  else if strIncludes style "connect" || strIncludes style "ligature" || strIncludes style "modern" then
    "Ligature-heavy"
  else
    "Ligature-heavy"

/-- `parseConceptStyles`: split the visual style on commas, trim and
lowercase each piece, drop empties. -/
def parseConceptStyles (visualStyle : String) : List String :=
  ((jsSplitComma visualStyle).map (fun s => jsToLower (jsTrim s))).filter
    (fun s => s ≠ "")

/-- `generateWordmarkPrompt`, hook-build variant (takes a color treatment).
`adjective`, `additionalStyles` and `strokeColor` carry the destructuring
defaults of the source. -/
def generateWordmarkPrompt (companyName : String) (adjective : Option String)
    (additionalStyles : Option (List String)) (strokeColor : Option String)
    (colorTreatment : ColorTreatment) : String :=
  let adj := adjective.getD "Ligature-heavy"
  let styles := additionalStyles.getD []
  let stroke := strokeColor.getD "black"
  let actualStrokeColor :=
    match colorTreatment with
    | .black => "Black"
    | .brandColors => stroke
    | .darkBg => "White"
  let background :=
    match colorTreatment with
    | .black => "Fully white background"
    | .brandColors => "Fully white background"
    | .darkBg => "Dark background"
  let parts :=
    ["Wordmark for \"" ++ companyName ++ "\".",
     jsCharAt0Upper actualStrokeColor ++ (String.mk actualStrokeColor.data.tail) ++ " stroke.",
     "Single-line.",
     "Fully flat.",
     adj ++ "."]
  let parts := if styles.length > 0 then parts ++ [String.intercalate ", " styles ++ "."] else parts
  let parts := parts ++ [background ++ ".", "No extra text."]
  String.intercalate " " parts

/-- `generateWordmarkPrompt` as it appears in `src/lib/logo-prompt-generator.ts`
(the copy without a color treatment parameter). -/
def generateWordmarkPromptLib (companyName : String) (adjective : Option String)
    (additionalStyles : Option (List String)) (strokeColor : Option String) : String :=
  let adj := adjective.getD "Ligature-heavy"
  let styles := additionalStyles.getD []
  let stroke := strokeColor.getD "black"
  let parts :=
    ["Wordmark for \"" ++ companyName ++ "\".",
     jsCharAt0Upper stroke ++ (String.mk stroke.data.tail) ++ " stroke.",
     "Single-line.",
     "Fully flat.",
     adj ++ "."]
  let parts := if styles.length > 0 then parts ++ [String.intercalate ", " styles ++ "."] else parts
  let parts := parts ++ ["Fully white background.", "No extra text."]
  String.intercalate " " parts

/-- `generateLiteralMarkPrompt`.  The `switch (mode)` of the source is an
if-chain on the mode string; its `default` arm is kept because the
orchestrator can feed a string outside the three-mode union through a cast. -/
def generateLiteralMarkPrompt (companyName : String) (mode : String)
    (visualObject : Option String) (visualStyle : Option String)
    (colorTreatment : ColorTreatment) : String :=
  let colors :=
    match colorTreatment with
    | .black => "Black"
    | .brandColors =>
      "Generate a color style (gradient or flat colors). Ensure sufficient contrast on white background"
    | .darkBg => "Ensure sufficient contrast on dark background"
  let background :=
    match colorTreatment with
    | .black => "White background"
    | .brandColors => "White background"
    | .darkBg => "Dark background"
  let letters := extractLetters companyName
  if mode = "straight-forward" then
    "Logo mark. Minimalist. Fully flat. " ++ background ++ ". No text. " ++ colors ++ ". " ++
      (match visualStyle with | some s => if s ≠ "" then s else "bold" | none => "bold") ++ ". " ++
      (match visualObject with
       | some o => if o ≠ "" then o else "Abstract geometric shape"
       | none => "Abstract geometric shape") ++ "."
  else if mode = "conceptual" then
    "Logo mark for " ++ companyName ++ ". Contemporary minimalism with conceptual depth. " ++
      colors ++ ". " ++
      (match visualStyle with | some s => if s ≠ "" then s else "bold" | none => "bold") ++ ". " ++
      background ++ ". No extra text."
  else if mode = "continuous-line" then
    "Minimal continuous-line logo mark. Monoline. Use uniform stroke width with fully rounded corners, and visually merge simple concepts " ++
      (match visualObject with
       | some o => if o ≠ "" then o else "abstract shapes"
       | none => "abstract shapes") ++
      ", \"" ++ letters ++ "\". " ++ colors ++
      ". The result should feel friendly, simple, and easy to recognize at small sizes. " ++
      background ++ ". Fully flat."
  else
    "Logo mark for " ++ companyName ++ ". " ++ colors ++ "."

/-- `generateDerivedLettermarkPrompt` (the `colorTreatment = "black"`
destructuring default is applied by the caller passing `none`). -/
def generateDerivedLettermarkPrompt (companyName : String)
    (colorTreatment : Option ColorTreatment) : String :=
  let ct := colorTreatment.getD .black
  let letters := extractLetters companyName
  let colorInstruction :=
    match ct with
    | .black => "Use black color"
    | .brandColors => "Maintain the exact same font, weight, and color"
    | .darkBg => "Use white color"
  let background :=
    match ct with
    | .black => "white background"
    | .brandColors => "white background"
    | .darkBg => "dark background"
  "Create a 1:1 lettermark for \"" ++ letters ++
    "\" derived from the style of the provided wordmark. " ++ colorInstruction ++
    ". Isolate the initials on a " ++ background ++ "."

/-- `generateLogoPrompt`, the dispatching entry point of the hook-build
prompt generator.  `colorTreatment` and `mode` keep their destructuring
defaults (`"black"`, `"straight-forward"`). -/
def generateLogoPrompt (companyName : String) (concept : LogoConcept)
    (archetype : LogoArchetype) (colorTreatmentOpt : Option ColorTreatment)
    (modeOpt : Option String) : String :=
  let colorTreatment := colorTreatmentOpt.getD .black
  let mode := modeOpt.getD "straight-forward"
  let additionalStyles := parseConceptStyles concept.visualStyle
  match archetype with
  | .wordmark =>
    let adjective := selectWordmarkAdjective concept.visualStyle
    generateWordmarkPrompt companyName (some adjective) (some additionalStyles)
      (some concept.primaryColor.name) colorTreatment
  | .literal =>
    generateLiteralMarkPrompt companyName mode (some concept.visualObject)
      (some concept.visualStyle) colorTreatment
  | .lettermarkDerived =>
    generateDerivedLettermarkPrompt companyName (some colorTreatment)
  | .lettermarkEnclosed =>
    -- the source throws `Unknown archetype` here; the orchestrator never
    -- requests this archetype
    ""

/-! ## The orchestrator's id regex

`use-logo-creation.ts` re-derives a literal mark's mode from its id with
`blackLogo.id.match` against the regex `literal-(\w+-?\w*)-` (unanchored,
first match).  The pattern is modelled by a
bespoke backtracking matcher with exactly the JavaScript semantics for this
pattern: scan start positions left to right; at a position, match the text
`literal-`, then the capture group `\w+-?\w*` (each piece greedy, with
backtracking), then a literal `-`. -/

/-- JS `\w`: ASCII letters, digits and underscore. -/
def isWordChar (c : Char) : Bool := c.isAlpha || c.isDigit || c = '_'

/-- Match `\w*` (greedy) followed by the final literal `-` of the pattern;
`g` is the capture built so far, the returned value is the full capture. -/
def tryTail (g : List Char) : List Char → Option (List Char)
  | [] => none
  | c :: r =>
    (if isWordChar c then tryTail (g ++ [c]) r else none) <|>
      (if c = '-' then some g else none)

/-- Match `-?` (greedy: try consuming a dash first) and then the rest of the
pattern. -/
def tryDash (g : List Char) (rest : List Char) : Option (List Char) :=
  (match rest with
   | c :: r => if c = '-' then tryTail (g ++ [c]) r else none
   | [] => none) <|>
    tryTail g rest

/-- Match `\w+` (greedy) and then the rest of the pattern. -/
def tryPlus (g : List Char) : List Char → Option (List Char)
  | [] => none
  | c :: r =>
    if isWordChar c then (tryPlus (g ++ [c]) r) <|> tryDash (g ++ [c]) r
    else none

/-- Try the whole pattern at the current position: the text `literal-`
(8 characters) and then the capture group. -/
def matchFromHere (cs : List Char) : Option (List Char) :=
  if "literal-".data.isPrefixOf cs then tryPlus [] (cs.drop 8) else none

/-- JS `String.prototype.match` for this pattern: first matching start
position wins; returns the capture group. -/
def scanMatch (cs : List Char) : Option (List Char) :=
  match matchFromHere cs with
  | some g => some g
  | none =>
    match cs with
    | [] => none
    | _ :: r => scanMatch r

/-- `const mode = modeMatch ? modeMatch[1] : 'straight-forward'` from the
orchestrator's phase 2. -/
def parseModeFromId (id : String) : String :=
  match scanMatch id.data with
  | some g => String.mk g
  | none => "straight-forward"

/-! ## Orchestrator (`use-logo-creation.ts`, `generateLogos`)

`generateLogos` is an async workflow whose only effects are `fetch` calls
and React state updates.  It is modelled as a pure function of the company
name, the selected concept, and an environment fixing the outcome of every
batch call: `aborted` (the abort controller fired before the call settled —
i.e. `cancelGeneration` was invoked while it was in flight, so the `fetch`
rejects with `AbortError`), `httpError` (`response.ok` false, or a non-abort
network failure), or `ok results` (the parsed `BatchGenerateResponse`).
The run records the final workflow step, the final result collection, the
final `isGeneratingLogos` flag (the `finally` block always clears it), and
the list of batch calls actually dispatched. -/

inductive LogoCreationStep where
  | brandInput
  | conceptSelection
  | promptPreview
  | generation
  | results
  deriving DecidableEq, Repr

inductive FetchOutcome where
  | aborted
  | httpError
  | ok (results : List LogoGenerationResult)
  deriving DecidableEq, Repr

structure GenEnv where
  phase1 : FetchOutcome
  derived : FetchOutcome
  phase2 : Nat → FetchOutcome

structure GenRun where
  step : LogoCreationStep
  variations : List LogoGenerationResult
  isGeneratingLogos : Bool
  dispatched : List (List LogoGenerationRequest)

/-- `const literalModes = ['straight-forward', 'conceptual', 'continuous-line']`. -/
def literalModes : List String := ["straight-forward", "conceptual", "continuous-line"]

/-- The phase-1 literal id: `` `literal-${mode}-${i}` ``. -/
def literalId (mode : String) (i : Nat) : String :=
  "literal-" ++ mode ++ "-" ++ toString i

/-- The twelve phase-1 requests: three per literal mode, then three
wordmarks. -/
def buildPhase1Requests (companyName : String) (concept : LogoConcept) :
    List LogoGenerationRequest :=
  ((literalModes.map fun mode =>
    (List.range 3).map fun i =>
      { id := literalId mode i
        type := LogoArchetype.literal
        prompt := generateLogoPrompt companyName concept .literal (some .black) (some mode)
        aspectRatio := "1:1"
        previousImageUrl := none }).flatten)
  ++ ((List.range 3).map fun i =>
      { id := "wordmark-" ++ toString i
        type := LogoArchetype.wordmark
        prompt := generateLogoPrompt companyName concept .wordmark (some .black) none
        aspectRatio := "16:9"
        previousImageUrl := none })

/-- `` Array.from({length: 3}, (_, i) => `lettermark-derived-${i}`) ``. -/
def derivedLettermarkIds : List String :=
  (List.range 3).map fun i => "lettermark-derived-" ++ toString i

/-- The placeholder collection installed before phase 1 is dispatched:
one optimistic empty-url record per phase-1 request, plus one per derived
lettermark id (with empty prompt). -/
def initialPlaceholders (companyName : String) (concept : LogoConcept) :
    List LogoGenerationResult :=
  ((buildPhase1Requests companyName concept).map fun req =>
    { id := req.id, type := req.type, url := "", prompt := req.prompt
      status := GenStatus.success, colorTreatment := some .black, error := none })
  ++ (derivedLettermarkIds.map fun id =>
    { id := id, type := LogoArchetype.lettermarkDerived, url := "", prompt := ""
      status := GenStatus.success, colorTreatment := some .black, error := none })

/-- The merge loop used after every batch response settles:

```
const newVariations = [...prev]
results.forEach(result => {
  const index = newVariations.findIndex(v => v.id === result.id)
  if (index !== -1) { newVariations[index] = { ...result, ... } }
})
```

`f` is the per-result decoration (`colorTreatment` fixup) applied at the
replacement site. -/
def mergeResults (f : LogoGenerationResult → LogoGenerationResult)
    (prev incoming : List LogoGenerationResult) : List LogoGenerationResult :=
  incoming.foldl (fun acc result =>
    match jsFindIndex (fun v => v.id == result.id) acc with
    | some index => acc.set index (f result)
    | none => acc) prev

/-- `{ ...result, colorTreatment: 'black' }` (phase 1 and phase 1.5 merges). -/
def withBlackTreatment (r : LogoGenerationResult) : LogoGenerationResult :=
  { r with colorTreatment := some .black }

/-- JS `String.prototype.endsWith`. -/
def strEndsWith (s sfx : String) : Bool :=
  sfx.data.reverse.isPrefixOf s.data.reverse

/-- `{ ...result, colorTreatment: result.id.endsWith('-brand') ? 'brand-colors' : 'dark-bg' }`
(phase 2 merges). -/
def withSuffixTreatment (r : LogoGenerationResult) : LogoGenerationResult :=
  { r with
    colorTreatment :=
      some (if strEndsWith r.id "-brand" then ColorTreatment.brandColors
            else ColorTreatment.darkBg) }

/-- The three phase-1.5 requests derived from the first successful
wordmark's url. -/
def buildDerivedRequests (companyName : String) (concept : LogoConcept)
    (wordmarkUrl : String) : List LogoGenerationRequest :=
  (List.range 3).map fun i =>
    { id := derivedLettermarkIds.getD i ""
      type := LogoArchetype.lettermarkDerived
      prompt := generateLogoPrompt companyName concept .lettermarkDerived (some .black) none
      aspectRatio := "1:1"
      previousImageUrl := some wordmarkUrl }

/-- The two phase-2 follow-ups (`-brand`, `-dark`) pushed for one black
logo.  The mode is re-derived from the id and passed only for literal
marks; aspect ratio is `16:9` for wordmarks and `1:1` otherwise. -/
def phase2RequestsFor (companyName : String) (concept : LogoConcept)
    (blackLogo : LogoGenerationResult) : List LogoGenerationRequest :=
  let mode := parseModeFromId blackLogo.id
  let modeOpt := if blackLogo.type = LogoArchetype.literal then some mode else none
  let ar := if blackLogo.type = LogoArchetype.wordmark then "16:9" else "1:1"
  [{ id := blackLogo.id ++ "-brand"
     type := blackLogo.type
     prompt := generateLogoPrompt companyName concept blackLogo.type (some .brandColors) modeOpt
     aspectRatio := ar
     previousImageUrl := some blackLogo.url },
   { id := blackLogo.id ++ "-dark"
     type := blackLogo.type
     prompt := generateLogoPrompt companyName concept blackLogo.type (some .darkBg) modeOpt
     aspectRatio := ar
     previousImageUrl := some blackLogo.url }]

/-- The full phase-2 request list: the `allBlackLogos.forEach` loop pushing
two requests per black logo, in order. -/
def buildPhase2Requests (companyName : String) (concept : LogoConcept) :
    List LogoGenerationResult → List LogoGenerationRequest
  | [] => []
  | b :: rest =>
    phase2RequestsFor companyName concept b ++ buildPhase2Requests companyName concept rest

/-- The placeholder appended for one phase-2 request. -/
def phase2Placeholder (req : LogoGenerationRequest) : LogoGenerationResult :=
  { id := req.id, type := req.type, url := "", prompt := req.prompt
    status := GenStatus.success
    colorTreatment :=
      some (if strEndsWith req.id "-brand" then ColorTreatment.brandColors
            else ColorTreatment.darkBg)
    error := none }

/-- Split a list into chunks of `n` (the `for (let i = 0; i < len; i += BATCH_SIZE)`
slicing loop); fuelled by the list length. -/
def chunkAux (fuel n : Nat) (l : List α) : List (List α) :=
  match fuel with
  | 0 => []
  | fuel + 1 =>
    match l with
    | [] => []
    | x :: xs => (x :: xs).take n :: chunkAux fuel n ((x :: xs).drop n)

/-- `BATCH_SIZE`-slicing of the phase-2 requests. -/
def chunkList (n : Nat) (l : List α) : List (List α) := chunkAux l.length n l

/-- The sequential phase-2 batch loop.  Returns the final collection, the
batches actually dispatched, and whether an abort interrupted the loop.
An `httpError` batch is skipped (`continue`); an abort stops everything. -/
def runPhase2Batches (env : GenEnv) (batchIndex : Nat)
    (vars : List LogoGenerationResult) :
    List (List LogoGenerationRequest) →
      List LogoGenerationResult × List (List LogoGenerationRequest) × Bool
  | [] => (vars, [], false)
  | batch :: rest =>
    match env.phase2 batchIndex with
    | .aborted => (vars, [batch], true)
    | .httpError =>
      let out := runPhase2Batches env (batchIndex + 1) vars rest
      (out.1, batch :: out.2.1, out.2.2)
    | .ok results =>
      let vars2 := mergeResults withSuffixTreatment vars results
      let out := runPhase2Batches env (batchIndex + 1) vars2 rest
      (out.1, batch :: out.2.1, out.2.2)

/-- Phase 2 of `generateLogos`, entered after phases 1 and 1.5 settle.
When no black logo exists phase 2 is skipped and the run goes straight to
the `results` step; an abort inside the batch loop leaves the step at
`generation` (the `AbortError` is swallowed before `setCurrentStep('results')`
is reached). -/
def generateLogosPhase2 (companyName : String) (concept : LogoConcept)
    (env : GenEnv) (results1 derivedResults vars : List LogoGenerationResult)
    (dispatchedSoFar : List (List LogoGenerationRequest)) : GenRun :=
  let allBlackLogos := results1.filter (fun r => r.url != "") ++ derivedResults
  if allBlackLogos.isEmpty then
    { step := .results, variations := vars, isGeneratingLogos := false
      dispatched := dispatchedSoFar }
  else
    let phase2Requests := buildPhase2Requests companyName concept allBlackLogos
    let vars2 := vars ++ phase2Requests.map phase2Placeholder
    let batches := chunkList 20 phase2Requests
    let out := runPhase2Batches env 0 vars2 batches
    { step := if out.2.2 then LogoCreationStep.generation else LogoCreationStep.results
      variations := out.1
      isGeneratingLogos := false
      dispatched := dispatchedSoFar ++ out.2.1 }

/-- `generateLogos`.  A thrown error on the phase-1 call (abort or HTTP
failure) is caught by the surrounding `try/catch`, which leaves the step at
`generation`; a failed phase-1.5 call is ignored (`if (derivedResponse.ok)`),
an aborted one throws. -/
def generateLogos (companyName : String) (concept : LogoConcept) (env : GenEnv) :
    GenRun :=
  let phase1Requests := buildPhase1Requests companyName concept
  let allPlaceholders := initialPlaceholders companyName concept
  match env.phase1 with
  | .aborted =>
    { step := .generation, variations := allPlaceholders, isGeneratingLogos := false
      dispatched := [phase1Requests] }
  | .httpError =>
    { step := .generation, variations := allPlaceholders, isGeneratingLogos := false
      dispatched := [phase1Requests] }
  | .ok results1 =>
    let vars1 := mergeResults withBlackTreatment allPlaceholders results1
    match results1.find? (fun r => r.type == LogoArchetype.wordmark && r.url != "") with
    | some wordmarkResult =>
      let derivedRequests := buildDerivedRequests companyName concept wordmarkResult.url
      match env.derived with
      | .aborted =>
        { step := .generation, variations := vars1, isGeneratingLogos := false
          dispatched := [phase1Requests, derivedRequests] }
      | .httpError =>
        generateLogosPhase2 companyName concept env results1 [] vars1
          [phase1Requests, derivedRequests]
      | .ok derivedData =>
        let derivedResults := derivedData.filter (fun r => r.url != "")
        let vars2 := mergeResults withBlackTreatment vars1 derivedData
        generateLogosPhase2 companyName concept env results1 derivedResults vars2
          [phase1Requests, derivedRequests]
    | none =>
      generateLogosPhase2 companyName concept env results1 [] vars1 [phase1Requests]

/-! ## Batch API route (`handleBatchGeneration`)

The route validates the batch size, then runs every request through
`generateSingleImage` under `Promise.allSettled`, capturing each outcome
independently.  A request's outcome is modelled by `SingleOutcome`:
`ok url` (the generated image), `thrown msg` (`generateSingleImage` threw —
`some` an `Error` message, `none` a non-`Error` value), or `rejected msg`
(the settled promise was rejected and is mapped by the all-settled
handler). -/

inductive SingleOutcome where
  | ok (url : String)
  | thrown (msg : Option String)
  | rejected (msg : Option String)
  deriving DecidableEq, Repr

/-- How one request's settled outcome becomes a `LogoGenerationResult`. -/
def settleRequest (o : SingleOutcome) (req : LogoGenerationRequest) :
    LogoGenerationResult :=
  match o with
  | .ok url =>
    { id := req.id, type := req.type, url := url, prompt := req.prompt
      status := GenStatus.success, colorTreatment := none, error := none }
  | .thrown m =>
    { id := req.id, type := req.type, url := "", prompt := req.prompt
      status := GenStatus.error, colorTreatment := none
      error := some (m.getD "Unknown error") }
  | .rejected m =>
    { id := req.id, type := req.type, url := "", prompt := req.prompt
      status := GenStatus.error, colorTreatment := none
      error := some (m.getD "Generation failed") }

/-- Positional settlement of all requests (`requests.map` + `Promise.allSettled`
+ the index-aligned `results.map`). -/
def settleAll (env : Nat → SingleOutcome) (i : Nat) :
    List LogoGenerationRequest → List LogoGenerationResult
  | [] => []
  | req :: rest => settleRequest (env i) req :: settleAll env (i + 1) rest

structure BatchRun where
  result : Except String (List LogoGenerationResult)
  dispatched : List LogoGenerationRequest

/-- `handleBatchGeneration`: size validation happens before anything is
dispatched to the image service. -/
def handleBatchGeneration (requests : List LogoGenerationRequest)
    (env : Nat → SingleOutcome) : BatchRun :=
  if requests.length = 0 then
    { result := .error "Batch requests array is required and must not be empty"
      dispatched := [] }
  else if requests.length > 20 then
    { result := .error "Maximum 20 batch requests allowed"
      dispatched := [] }
  else
    { result := .ok (settleAll env 0 requests)
      dispatched := requests }

/-! ## Concrete fixtures used by witnesses and counterexamples -/

def conceptEx : LogoConcept :=
  { id := "c1", visualObject := "leaf", visualStyle := "bold"
    primaryColor := { name := "Red", hex := "#ff0000" }, secondaryColor := none }

/-- Cancellation fired while the phase-1 call was in flight. -/
def envAborted : GenEnv :=
  { phase1 := .aborted, derived := .aborted, phase2 := fun _ => .aborted }

/-- Phase 1 answers with one successful wordmark; everything later fails at
the HTTP level. -/
def envWordmark : GenEnv :=
  { phase1 := .ok [{ id := "wordmark-0", type := .wordmark, url := "u", prompt := ""
                     status := .success, colorTreatment := none, error := none }]
    derived := .httpError, phase2 := fun _ => .httpError }

/-- Phase 1 answers with a single failed result whose id matches no
placeholder. -/
def envOrphan : GenEnv :=
  { phase1 := .ok [{ id := "orphan", type := .literal, url := "", prompt := ""
                     status := .error, colorTreatment := none, error := some "boom" }]
    derived := .httpError, phase2 := fun _ => .httpError }


/-- The five adjective groups with their trigger keywords, in the priority
order stated by the spec. -/
def wordmarkAdjectiveGroups : List (String × List String) :=
  [("Script/Calligraphic", ["script", "calligraph", "flowing"]),
   ("Handwritten elegance", ["handwritten", "elegant", "organic"]),
   ("Decorative", ["decorative", "ornate"]),
   ("Stencil - Military/industrial cutout", ["industrial", "military", "stencil"]),
   ("Ligature-heavy", ["connect", "ligature", "modern"])]

/-- First group whose keyword occurs in the (already lowercased) style
string; `Ligature-heavy` when none matches. -/
def firstMatchingGroup (style : String) : List (String × List String) → String
  | [] => "Ligature-heavy"
  | g :: rest =>
    if g.2.any (fun k => strIncludes style k) then g.1 else firstMatchingGroup style rest

/-- Modelled from the spec's words: check the five adjective groups in the
fixed priority order and return the first whose keyword occurs in the
lowercased style string, defaulting to `Ligature-heavy`. -/
def selectWordmarkAdjectiveSpec (conceptStyle : String) : String :=
  firstMatchingGroup (jsToLower conceptStyle) wordmarkAdjectiveGroups


/-- What C6 claims of a valid-size batch: the handler succeeds, dispatches
exactly the requests, returns one result per input position with the input's
id, and each position's outcome is captured independently — success keeps
the url, failure yields an error status with empty url and a non-empty
message. -/
def batchPartialFailureSpec (requests : List LogoGenerationRequest)
    (env : Nat → SingleOutcome) : Prop :=
  ∃ results, (handleBatchGeneration requests env).result = .ok results ∧
    (handleBatchGeneration requests env).dispatched = requests ∧
    results.length = requests.length ∧
    ∀ k : Nat, k < requests.length →
      ∃ req res, requests[k]? = some req ∧ results[k]? = some res ∧
        res.id = req.id ∧ res.type = req.type ∧ res.prompt = req.prompt ∧
        (∀ url, env k = .ok url →
          res.status = GenStatus.success ∧ res.url = url ∧ res.error = none) ∧
        (∀ m, env k = .thrown m ∨ env k = .rejected m →
          res.status = GenStatus.error ∧ res.url = "" ∧
            ∃ s, res.error = some s ∧ s ≠ "")


/-- The concrete mixed batch of the spec's example: ids 1 and 3 succeed,
id 2 fails. -/
def requestsMixed : List LogoGenerationRequest :=
  [{ id := "1", type := .literal, prompt := "p1", aspectRatio := "1:1", previousImageUrl := none },
   { id := "2", type := .literal, prompt := "p2", aspectRatio := "1:1", previousImageUrl := none },
   { id := "3", type := .literal, prompt := "p3", aspectRatio := "1:1", previousImageUrl := none }]

def envMixed : Nat → SingleOutcome := fun k =>
  if k = 1 then SingleOutcome.thrown (some "Rate limit exceeded")
  else SingleOutcome.ok ("data:u" ++ toString k)


/-- Join words with single spaces. -/
def joinWords : List (List Char) → List Char
  | [] => []
  | [w] => w
  | w :: r :: rest => w ++ ' ' :: joinWords (r :: rest)


/-- Modelled from the spec's words: the uppercased first character of the
only word, or the concatenated uppercased first characters of the first two
words when there are at least two. -/
def specLetters : List String → String
  | [] => ""
  | [w] => jsCharAt0Upper w
  | w0 :: w1 :: _ => jsCharAt0Upper w0 ++ jsCharAt0Upper w1


/-- The twelve phase-1 ids, in dispatch order. -/

def phase1Ids : List String :=
  ["literal-straight-forward-0", "literal-straight-forward-1", "literal-straight-forward-2",
   "literal-conceptual-0", "literal-conceptual-1", "literal-conceptual-2",
   "literal-continuous-line-0", "literal-continuous-line-1", "literal-continuous-line-2",
   "wordmark-0", "wordmark-1", "wordmark-2"]


/-- Phase 1 succeeds with zero results; later phases fail at the HTTP
level. -/
def envNoWordmark : GenEnv :=
  { phase1 := .ok [], derived := .httpError, phase2 := fun _ => .httpError }


/-! ## Helper lemmas -/

theorem jsFindIndex_eq_none {p : α → Bool} :
    ∀ {l : List α}, jsFindIndex p l = none → ∀ x ∈ l, p x = false := by
  intro l
  induction l with
  | nil => intro _ x hx; cases hx
  | cons a t ih =>
    intro h x hx
    have hpa : p a = false := by
      by_contra hpa'
      have hpa2 : p a = true := by revert hpa'; cases p a <;> simp
      simp [jsFindIndex, hpa2] at h
    have ht : jsFindIndex p t = none := by
      simpa [jsFindIndex, hpa] using h
    rcases List.mem_cons.mp hx with rfl | hx'
    · exact hpa
    · exact ih ht x hx'

theorem jsFindIndex_eq_some {p : α → Bool} :
    ∀ {l : List α} {i : Nat}, jsFindIndex p l = some i →
      ∃ x, l[i]? = some x ∧ p x = true := by
  intro l
  induction l with
  | nil => intro i h; simp [jsFindIndex] at h
  | cons a t ih =>
    intro i h
    by_cases hpa : p a = true
    · simp [jsFindIndex, hpa] at h
      exact ⟨a, by simp [← h], hpa⟩
    · simp [jsFindIndex, hpa] at h
      rcases h with ⟨j, hj, rfl⟩
      rcases ih hj with ⟨x, hx, hpx⟩
      exact ⟨x, by simpa using hx, hpx⟩

theorem set_getElem?_self {l : List α} {i : Nat} {a : α} (h : l[i]? = some a) :
    l.set i a = l := by
  apply List.ext_getElem?
  intro n
  rw [List.getElem?_set]
  by_cases hin : i = n
  · subst hin
    have hlt : i < l.length := (List.getElem?_eq_some.mp h).1
    simp [hlt, h.symm]
  · simp [hin]

theorem getElem?_mem {l : List α} {i : Nat} {a : α} (h : l[i]? = some a) : a ∈ l := by
  rcases List.getElem?_eq_some.mp h with ⟨hlt, rfl⟩
  exact List.getElem_mem hlt

theorem nodup_map_id_ne {l : List LogoGenerationResult}
    (h : (l.map (fun v => v.id)).Nodup) {i j : Nat} (hij : i ≠ j)
    {x y : LogoGenerationResult} (hx : l[i]? = some x) (hy : l[j]? = some y) :
    x.id ≠ y.id := by
  intro he
  rcases List.getElem?_eq_some.mp hx with ⟨hi, hx'⟩
  rcases List.getElem?_eq_some.mp hy with ⟨hj, hy'⟩
  have hi' : i < (l.map (fun v => v.id)).length := by simpa using hi
  have hj' : j < (l.map (fun v => v.id)).length := by simpa using hj
  have hget : (l.map (fun v => v.id)).get ⟨i, hi'⟩ = (l.map (fun v => v.id)).get ⟨j, hj'⟩ := by
    simp [List.get_eq_getElem, List.getElem_map, hx', hy', he]
  have := (h.get_inj_iff).mp hget
  exact hij (by simpa using congrArg Fin.val this)

/-- One step of the merge loop. -/
theorem mergeResults_cons (f : LogoGenerationResult → LogoGenerationResult)
    (prev : List LogoGenerationResult) (r : LogoGenerationResult)
    (rest : List LogoGenerationResult) :
    mergeResults f prev (r :: rest) =
      mergeResults f
        (match jsFindIndex (fun v => v.id == r.id) prev with
         | some index => prev.set index (f r)
         | none => prev) rest := rfl

/-- The merge never changes the sequence of ids (in particular it never
appends): replacement happens in place, unknown ids are ignored. -/
theorem mergeResults_map_id (f : LogoGenerationResult → LogoGenerationResult)
    (hf : ∀ r, (f r).id = r.id) :
    ∀ (incoming prev : List LogoGenerationResult),
      (mergeResults f prev incoming).map (fun v => v.id) = prev.map (fun v => v.id) := by
  intro incoming
  induction incoming with
  | nil => intro prev; rfl
  | cons r rest ih =>
    intro prev
    rw [mergeResults_cons]
    cases hfi : jsFindIndex (fun v => v.id == r.id) prev with
    | none => simpa [hfi] using ih prev
    | some j =>
      rcases jsFindIndex_eq_some hfi with ⟨vj, hvj, hpj⟩
      have hidj : vj.id = r.id := by simpa using hpj
      have hset : (prev.set j (f r)).map (fun v => v.id) = prev.map (fun v => v.id) := by
        rw [List.map_set, hf r]
        apply set_getElem?_self
        rw [List.getElem?_map, hvj]
        simp [hidj]
      simp only [hfi]
      rw [ih (prev.set j (f r)), hset]

/-- Every entry of the merged collection is either an entry of the previous
collection or the decorated image of an incoming result. -/
theorem mem_mergeResults (f : LogoGenerationResult → LogoGenerationResult) :
    ∀ (incoming prev : List LogoGenerationResult),
      ∀ v ∈ mergeResults f prev incoming, v ∈ prev ∨ ∃ r ∈ incoming, v = f r := by
  intro incoming
  induction incoming with
  | nil => intro prev v hv; exact Or.inl hv
  | cons r rest ih =>
    intro prev v hv
    rw [mergeResults_cons] at hv
    cases hfi : jsFindIndex (fun v => v.id == r.id) prev with
    | none =>
      rw [hfi] at hv
      rcases ih prev v hv with h | ⟨r', hr', rfl⟩
      · exact Or.inl h
      · exact Or.inr ⟨r', by simp [hr'], rfl⟩
    | some j =>
      rw [hfi] at hv
      rcases ih (prev.set j (f r)) v hv with h | ⟨r', hr', rfl⟩
      · rcases List.mem_or_eq_of_mem_set h with h' | rfl
        · exact Or.inl h'
        · exact Or.inr ⟨r, by simp, rfl⟩
      · exact Or.inr ⟨r', by simp [hr'], rfl⟩

/-- Positional characterisation of the merge: when ids are unique on both
sides, the entry at position `i` is replaced by the (decorated) incoming
result with the same id if one exists, and kept otherwise. -/
theorem mergeResults_getElem? (f : LogoGenerationResult → LogoGenerationResult)
    (hf : ∀ r, (f r).id = r.id) :
    ∀ (incoming prev : List LogoGenerationResult),
      (prev.map (fun v => v.id)).Nodup →
      (incoming.map (fun v => v.id)).Nodup →
      ∀ i : Nat, (mergeResults f prev incoming)[i]? =
        (prev[i]?).map (fun v =>
          match incoming.find? (fun r => r.id == v.id) with
          | some r => f r
          | none => v) := by
  intro incoming
  induction incoming with
  | nil =>
    intro prev _ _ i
    cases h : prev[i]? <;> simp [mergeResults, h]
  | cons r rest ih =>
    intro prev hprev hinc i
    have hrest : (rest.map (fun v => v.id)).Nodup := by
      rw [List.map_cons, List.nodup_cons] at hinc
      exact hinc.2
    have hnotin : r.id ∉ rest.map (fun v => v.id) := by
      rw [List.map_cons, List.nodup_cons] at hinc
      exact hinc.1
    rw [mergeResults_cons]
    cases hfi : jsFindIndex (fun v => v.id == r.id) prev with
    | none =>
      have hall := jsFindIndex_eq_none hfi
      rw [ih prev hprev hrest i]
      cases hpi : prev[i]? with
      | none => rfl
      | some v =>
        have hv : (v.id == r.id) = false := hall v (getElem?_mem hpi)
        have hv' : (r.id == v.id) = false := by
          simp only [beq_eq_false_iff_ne] at hv ⊢
          exact fun he => hv he.symm
        simp [List.find?_cons, hv']
    | some j =>
      rcases jsFindIndex_eq_some hfi with ⟨vj, hvj, hpj⟩
      have hidj : vj.id = r.id := by simpa using hpj
      have hjlt : j < prev.length := (List.getElem?_eq_some.mp hvj).1
      have hset : (prev.set j (f r)).map (fun v => v.id) = prev.map (fun v => v.id) := by
        rw [List.map_set, hf r]
        apply set_getElem?_self
        rw [List.getElem?_map, hvj]
        simp [hidj]
      have hnodup' : ((prev.set j (f r)).map (fun v => v.id)).Nodup := by
        rw [hset]; exact hprev
      rw [ih (prev.set j (f r)) hnodup' hrest i]
      by_cases hij : i = j
      · subst hij
        have hgot : (prev.set i (f r))[i]? = some (f r) := List.getElem?_set_self hjlt
        have hfr : rest.find? (fun r' => r'.id == (f r).id) = none := by
          rw [List.find?_eq_none]
          intro x hx
          simp only [hf r, beq_iff_eq]
          intro he
          exact hnotin (by rw [← he]; exact List.mem_map_of_mem _ hx)
        rw [hgot, hvj]
        simp [hfr, List.find?_cons, hidj]
      · have hgot : (prev.set j (f r))[i]? = prev[i]? :=
          List.getElem?_set_ne (fun h => hij h.symm)
        rw [hgot]
        cases hpi : prev[i]? with
        | none => rfl
        | some v =>
          have hne : v.id ≠ vj.id := nodup_map_id_ne hprev hij hpi hvj
          have hrv : (r.id == v.id) = false := by
            simp only [beq_eq_false_iff_ne]
            intro he
            exact hne (by rw [hidj, he])
          simp [List.find?_cons, hrv]

/-! ## Claims -/

/-- C1, counterexample: a batch result whose id is not in the collection is
dropped by the merge, not appended — merging it into the empty collection
yields the empty collection. -/
theorem c1_counterexample :
    mergeResults withBlackTreatment []
      [{ id := "orphan", type := .literal, url := "u", prompt := "p"
         status := .success, colorTreatment := none, error := none }] = [] := rfl

/-- C1 (amended): for every batch response merged by `generateLogos`' merge
step, each returned result whose id already exists in the result collection
replaces that entry in place (the id sequence of the collection is
unchanged), and every returned result whose id is not found is discarded —
nothing is ever appended. -/
theorem c1_merge_replaces_in_place (f : LogoGenerationResult → LogoGenerationResult)
    (prev incoming : List LogoGenerationResult)
    (hf : ∀ r, (f r).id = r.id)
    (hprev : (prev.map (fun v => v.id)).Nodup)
    (hinc : (incoming.map (fun v => v.id)).Nodup) :
    (mergeResults f prev incoming).map (fun v => v.id) = prev.map (fun v => v.id) ∧
    ∀ i : Nat, (mergeResults f prev incoming)[i]? =
      (prev[i]?).map (fun v =>
        match incoming.find? (fun r => r.id == v.id) with
        | some r => f r
        | none => v) :=
  ⟨mergeResults_map_id f hf incoming prev,
   mergeResults_getElem? f hf incoming prev hprev hinc⟩

/-- C1 witness: a concrete merge where id `"b"` is replaced in place and the
unknown id `"zz"` is dropped. -/
theorem c1_merge_replaces_in_place_witness :
    (∀ r : LogoGenerationResult, (withBlackTreatment r).id = r.id) ∧
    ((([{ id := "a", type := .literal, url := "", prompt := ""
          status := .success, colorTreatment := none, error := none },
        { id := "b", type := .wordmark, url := "", prompt := ""
          status := .success, colorTreatment := none, error := none }] :
          List LogoGenerationResult).map (fun v => v.id)).Nodup) ∧
    (mergeResults withBlackTreatment
        [{ id := "a", type := .literal, url := "", prompt := ""
           status := .success, colorTreatment := none, error := none },
         { id := "b", type := .wordmark, url := "", prompt := ""
           status := .success, colorTreatment := none, error := none }]
        [{ id := "b", type := .wordmark, url := "u", prompt := "p"
           status := .success, colorTreatment := none, error := none },
         { id := "zz", type := .literal, url := "w", prompt := "q"
           status := .success, colorTreatment := none, error := none }]).map
      (fun v => v.id) = ["a", "b"] := by
  refine ⟨fun r => rfl, by decide, ?_⟩
  have h := c1_merge_replaces_in_place withBlackTreatment
    [{ id := "a", type := .literal, url := "", prompt := ""
       status := .success, colorTreatment := none, error := none },
     { id := "b", type := .wordmark, url := "", prompt := ""
       status := .success, colorTreatment := none, error := none }]
    [{ id := "b", type := .wordmark, url := "u", prompt := "p"
       status := .success, colorTreatment := none, error := none },
     { id := "zz", type := .literal, url := "w", prompt := "q"
       status := .success, colorTreatment := none, error := none }]
    (fun r => rfl) (by decide) (by decide)
  exact h.1

/-- C2, counterexample: when phase 1 returns a successful wordmark, phase 2
does dispatch a `-brand` color-variant request for it (archetype
`wordmark`), so color variants are not restricted to literal marks. -/
theorem c2_counterexample :
    ((generateLogos "Acme" conceptEx envWordmark).dispatched.any fun b =>
      b.any fun q => q.type == LogoArchetype.wordmark && q.id == "wordmark-0-brand") = true := by
  decide

/-- C2 (amended): phase 2 derives its color-variant requests from every
successful black logo of phases 1 and 1.5 — literal marks, wordmarks and
derived lettermarks alike: for each black logo, exactly one `-brand` and one
`-dark` request are pushed, carrying that logo's archetype and its url as
the reference image. -/
theorem c2_phase2_covers_all_black_logos (companyName : String) (concept : LogoConcept)
    (logos : List LogoGenerationResult) :
    (buildPhase2Requests companyName concept logos).map
        (fun q => (q.id, q.type, q.previousImageUrl)) =
      (logos.map (fun b =>
        [(b.id ++ "-brand", b.type, some b.url),
         (b.id ++ "-dark", b.type, some b.url)])).flatten := by
  induction logos with
  | nil => rfl
  | cons b rest ih =>
    simp only [buildPhase2Requests, List.map_cons, List.flatten_cons, List.map_append, ← ih]
    rfl

/-- C3, counterexample: cancelling while the phase-1 batch is in flight does
not transition the workflow to `results`; the step remains `generation`. -/
theorem c3_counterexample :
    (generateLogos "Acme" conceptEx envAborted).step ≠ LogoCreationStep.results ∧
    (generateLogos "Acme" conceptEx envAborted).dispatched.length = 1 := by
  decide

/-- C3 (amended): if cancellation fires after the phase-1 batch is
dispatched but before it settles, the phase-1.5 and phase-2 batch calls are
never dispatched (exactly the one phase-1 batch is), the result collection
stays at the initial placeholders, and the workflow step remains
`generation` — it does not transition to `results` (the `AbortError` is
caught before `setCurrentStep('results')` is reached); `isGeneratingLogos`
is cleared by the `finally` block. -/
theorem c3_cancel_during_phase1 (companyName : String) (concept : LogoConcept)
    (env : GenEnv) (h : env.phase1 = .aborted) :
    (generateLogos companyName concept env).dispatched =
        [buildPhase1Requests companyName concept] ∧
    (generateLogos companyName concept env).step = LogoCreationStep.generation ∧
    (generateLogos companyName concept env).variations =
        initialPlaceholders companyName concept ∧
    (generateLogos companyName concept env).isGeneratingLogos = false := by
  simp [generateLogos, h]

/-- C3 witness: the amended statement at a concrete run. -/
theorem c3_cancel_during_phase1_witness :
    (envAborted.phase1 = FetchOutcome.aborted) ∧
    ((generateLogos "Acme" conceptEx envAborted).dispatched =
        [buildPhase1Requests "Acme" conceptEx] ∧
     (generateLogos "Acme" conceptEx envAborted).step = LogoCreationStep.generation ∧
     (generateLogos "Acme" conceptEx envAborted).variations =
        initialPlaceholders "Acme" conceptEx ∧
     (generateLogos "Acme" conceptEx envAborted).isGeneratingLogos = false) :=
  ⟨rfl, c3_cancel_during_phase1 "Acme" conceptEx envAborted rfl⟩

/-- C4: for every mode in the orchestrator's literal-mode list and every
index `i < 3`, matching the phase-1 literal id `literal-<mode>-<i>` with the
phase-2 pattern recovers exactly the original mode. -/
theorem c4_literal_id_roundtrip (mode : String) (hm : mode ∈ literalModes) (i : Fin 3) :
    parseModeFromId (literalId mode i.val) = mode := by
  fin_cases hm <;> fin_cases i <;> rfl

/-- C4 witness: the round trip at a concrete mode and index. -/
theorem c4_literal_id_roundtrip_witness :
    ("continuous-line" ∈ literalModes) ∧
    parseModeFromId (literalId "continuous-line" (2 : Fin 3).val) = "continuous-line" :=
  ⟨by decide, c4_literal_id_roundtrip "continuous-line" (by decide) 2⟩

/-- C7: a batch whose request list is empty or longer than 20 is rejected
with a validation error before anything is dispatched to the image
service. -/
theorem c7_batch_size_validation (requests : List LogoGenerationRequest)
    (env : Nat → SingleOutcome)
    (h : requests.length = 0 ∨ requests.length > 20) :
    (handleBatchGeneration requests env).dispatched = [] ∧
    ∃ m, (handleBatchGeneration requests env).result = .error m := by
  rcases h with h | h
  · exact ⟨by simp [handleBatchGeneration, h],
      "Batch requests array is required and must not be empty",
      by simp [handleBatchGeneration, h]⟩
  · have h0 : ¬ requests.length = 0 := by omega
    have h20 : requests.length > 20 := h
    exact ⟨by simp [handleBatchGeneration, h0, h20],
      "Maximum 20 batch requests allowed",
      by simp [handleBatchGeneration, h0, h20]⟩

/-- C7 witness: a batch of 21 requests is rejected with the size-limit
error and nothing is dispatched. -/
theorem c7_batch_size_validation_witness :
    ((List.replicate 21
        ({ id := "r", type := .literal, prompt := "", aspectRatio := "1:1"
           previousImageUrl := none } : LogoGenerationRequest)).length = 0 ∨
      (List.replicate 21
        ({ id := "r", type := .literal, prompt := "", aspectRatio := "1:1"
           previousImageUrl := none } : LogoGenerationRequest)).length > 20) ∧
    (handleBatchGeneration
        (List.replicate 21
          ({ id := "r", type := .literal, prompt := "", aspectRatio := "1:1"
             previousImageUrl := none } : LogoGenerationRequest))
        (fun _ => SingleOutcome.ok "")).dispatched = [] ∧
    (handleBatchGeneration
        (List.replicate 21
          ({ id := "r", type := .literal, prompt := "", aspectRatio := "1:1"
             previousImageUrl := none } : LogoGenerationRequest))
        (fun _ => SingleOutcome.ok "")).result =
      .error "Maximum 20 batch requests allowed" := by
  refine ⟨Or.inr (by decide), ?_, by rfl⟩
  exact (c7_batch_size_validation _ _ (Or.inr (by decide))).1

/-- C8: `generateWordmarkPrompt` on the documented example input (with the
black color treatment in the hook-build variant, and as-is in the library
variant) produces exactly the documented prompt string. -/
theorem c8_wordmark_prompt_example :
    generateWordmarkPrompt "Design Rails" (some "Handwritten elegance")
        (some ["dynamic"]) (some "black") .black =
      "Wordmark for \"Design Rails\". Black stroke. Single-line. Fully flat. Handwritten elegance. dynamic. Fully white background. No extra text." ∧
    generateWordmarkPromptLib "Design Rails" (some "Handwritten elegance")
        (some ["dynamic"]) (some "black") =
      "Wordmark for \"Design Rails\". Black stroke. Single-line. Fully flat. Handwritten elegance. dynamic. Fully white background. No extra text." :=
  ⟨rfl, rfl⟩

/-! ## C9: adjective selection, spec-side formulation -/

/-- C9: `selectWordmarkAdjective` coincides with the spec's priority-ordered
first-keyword-match description on every style string, and in particular
maps `"Modern, Flowing, Script"` to `"Script/Calligraphic"`. -/
theorem c9_adjective_priority :
    (∀ s, selectWordmarkAdjective s = selectWordmarkAdjectiveSpec s) ∧
    selectWordmarkAdjective "Modern, Flowing, Script" = "Script/Calligraphic" := by
  constructor
  · intro s
    simp only [selectWordmarkAdjective, selectWordmarkAdjectiveSpec, firstMatchingGroup,
      wordmarkAdjectiveGroups, List.any_cons, List.any_nil, Bool.or_false, Bool.or_assoc]
  · decide

/-! ## C6: partial failure inside a batch -/

theorem settleAll_length (env : Nat → SingleOutcome) :
    ∀ (l : List LogoGenerationRequest) (i : Nat), (settleAll env i l).length = l.length := by
  intro l
  induction l with
  | nil => intro i; rfl
  | cons req rest ih => intro i; simp [settleAll, ih]

theorem settleAll_getElem? (env : Nat → SingleOutcome) :
    ∀ (l : List LogoGenerationRequest) (i k : Nat),
      (settleAll env i l)[k]? = (l[k]?).map (fun req => settleRequest (env (i + k)) req) := by
  intro l
  induction l with
  | nil => intro i k; simp [settleAll]
  | cons req rest ih =>
    intro i k
    cases k with
    | zero => simp [settleAll]
    | succ k' =>
      simp only [settleAll, List.getElem?_cons_succ]
      rw [ih (i + 1) k']
      have : i + 1 + k' = i + (k' + 1) := by omega
      rw [this]

/-- C6: in a batch of valid size whose individual requests succeed or fail
independently (with non-empty failure messages, as every message thrown by
`generateSingleImage` is), the handler returns one result per input id —
failed ids carry an error status, empty url and a non-empty error string,
sibling successful ids keep their urls, and no individual failure makes the
handler itself fail. -/
theorem c6_partial_failure (requests : List LogoGenerationRequest)
    (env : Nat → SingleOutcome)
    (h1 : 1 ≤ requests.length) (h2 : requests.length ≤ 20)
    (hmsg : ∀ k m, env k = .thrown m ∨ env k = .rejected m → m ≠ some "") :
    batchPartialFailureSpec requests env := by
  have h0 : ¬ requests.length = 0 := by omega
  have h20 : ¬ requests.length > 20 := by omega
  refine ⟨settleAll env 0 requests, ?_, ?_, settleAll_length env requests 0, ?_⟩
  · simp [handleBatchGeneration, h0, h20]
  · simp [handleBatchGeneration, h0, h20]
  · intro k hk
    have hreq : requests[k]? = some requests[k] := List.getElem?_eq_getElem hk
    refine ⟨requests[k], settleRequest (env k) requests[k], hreq, ?_, ?_, ?_, ?_, ?_, ?_⟩
    · rw [settleAll_getElem? env requests 0 k, hreq]
      simp
    · cases env k <;> rfl
    · cases env k <;> rfl
    · cases env k <;> rfl
    · intro url hurl
      rw [hurl]
      exact ⟨rfl, rfl, rfl⟩
    · intro m hm
      rcases hm with hm | hm
      · rw [hm]
        refine ⟨rfl, rfl, m.getD "Unknown error", rfl, ?_⟩
        cases m with
        | none => decide
        | some s =>
          have := hmsg k (some s) (Or.inl hm)
          simpa using this
      · rw [hm]
        refine ⟨rfl, rfl, m.getD "Generation failed", rfl, ?_⟩
        cases m with
        | none => decide
        | some s =>
          have := hmsg k (some s) (Or.inr hm)
          simpa using this

/-- C6 witness: the mixed three-request batch. -/
theorem c6_partial_failure_witness :
    (1 ≤ requestsMixed.length ∧ requestsMixed.length ≤ 20) ∧
    batchPartialFailureSpec requestsMixed envMixed := by
  refine ⟨by decide, ?_⟩
  apply c6_partial_failure requestsMixed envMixed (by decide) (by decide)
  intro k m h
  by_cases hk : k = 1
  · subst hk
    rcases h with h | h
    · simp only [envMixed, if_pos rfl] at h
      cases h
      decide
    · simp [envMixed] at h
  · rcases h with h | h <;> simp [envMixed, hk] at h

/-! ## C10: extractLetters on whitespace-joined words

A company name made of words (non-empty, whitespace-free character lists)
joined by single spaces is the canonical input shape; `extractLetters` must
recover the uppercased initials of the first one or two words. -/

theorem joinWords_single (w : List Char) : joinWords [w] = w := rfl

theorem joinWords_cons2 (w r : List Char) (rest : List (List Char)) :
    joinWords (w :: r :: rest) = w ++ ' ' :: joinWords (r :: rest) := rfl

theorem dropWhile_cons_of_neg {p : Char → Bool} {c : Char} {l : List Char}
    (h : p c = false) : List.dropWhile p (c :: l) = c :: l := by
  simp [List.dropWhile_cons, h]

theorem joinWords_reverse_head :
    ∀ ws : List (List Char),
      (∀ w ∈ ws, w ≠ [] ∧ ∀ ch ∈ w, ch.isWhitespace = false) → ws ≠ [] →
      ∃ c t, (joinWords ws).reverse = c :: t ∧ c.isWhitespace = false := by
  intro ws
  induction ws with
  | nil => intro _ hne; exact absurd rfl hne
  | cons w rest ih =>
    intro h _
    obtain ⟨hwne, hwchars⟩ := h w (List.mem_cons_self _ _)
    cases rest with
    | nil =>
      cases hrev : w.reverse with
      | nil => exact absurd (List.reverse_eq_nil_iff.mp hrev) hwne
      | cons c t =>
        refine ⟨c, t, by simpa [joinWords_single] using hrev, ?_⟩
        have hcinw : c ∈ w := by
          rw [← List.mem_reverse, hrev]
          exact List.mem_cons_self _ _
        exact hwchars c hcinw
    | cons r rest' =>
      obtain ⟨c, t, hrev, hc⟩ := ih (fun x hx => h x (List.mem_cons_of_mem _ hx))
        (List.cons_ne_nil _ _)
      refine ⟨c, t ++ ' ' :: w.reverse, ?_, hc⟩
      rw [joinWords_cons2, List.reverse_append]
      simp [hrev]

/-- A space-joined sequence of non-empty whitespace-free words is already
trimmed. -/
theorem trim_joinWords (ws : List (List Char))
    (h : ∀ w ∈ ws, w ≠ [] ∧ ∀ ch ∈ w, ch.isWhitespace = false) (hne : ws ≠ []) :
    trimChars (joinWords ws) = joinWords ws := by
  obtain ⟨w, rest, rfl⟩ : ∃ w rest, ws = w :: rest := by
    cases ws with
    | nil => exact absurd rfl hne
    | cons w rest => exact ⟨w, rest, rfl⟩
  obtain ⟨hwne, hwchars⟩ := h w (List.mem_cons_self _ _)
  obtain ⟨c0, w', rfl⟩ : ∃ c0 w', w = c0 :: w' := by
    cases w with
    | nil => exact absurd rfl hwne
    | cons c0 w' => exact ⟨c0, w', rfl⟩
  have hc0 : c0.isWhitespace = false := hwchars c0 (List.mem_cons_self _ _)
  have hhead : joinWords ((c0 :: w') :: rest) =
      c0 :: (w' ++ (match rest with | [] => [] | r :: rest' => ' ' :: joinWords (r :: rest'))) := by
    cases rest with
    | nil => simp [joinWords_single]
    | cons r rest' => simp [joinWords_cons2]
  unfold trimChars
  rw [hhead, dropWhile_cons_of_neg hc0, ← hhead]
  obtain ⟨c, t, hrev, hc⟩ := joinWords_reverse_head ((c0 :: w') :: rest) h (List.cons_ne_nil _ _)
  rw [hrev, dropWhile_cons_of_neg hc, ← hrev, List.reverse_reverse]

/-- The tokenizer consumes a whitespace-free word wholesale. -/
theorem wordsAux_through_word :
    ∀ (w : List Char), (∀ ch ∈ w, ch.isWhitespace = false) →
      ∀ (acc tail : List Char), wordsAux acc (w ++ tail) = wordsAux (w.reverse ++ acc) tail := by
  intro w
  induction w with
  | nil => intro _ acc tail; simp
  | cons c w' ih =>
    intro hw acc tail
    have hc : c.isWhitespace = false := hw c (List.mem_cons_self _ _)
    have hstep : wordsAux acc ((c :: w') ++ tail) = wordsAux (c :: acc) (w' ++ tail) := by
      simp [wordsAux, hc]
    rw [hstep, ih (fun x hx => hw x (List.mem_cons_of_mem _ hx)) (c :: acc) tail]
    congr 1
    simp

/-- Tokenizing a space-joined word sequence returns exactly the words. -/
theorem tokenize_joinWords :
    ∀ ws : List (List Char),
      (∀ w ∈ ws, w ≠ [] ∧ ∀ ch ∈ w, ch.isWhitespace = false) → ws ≠ [] →
      wordsAux [] (joinWords ws) = ws := by
  intro ws
  induction ws with
  | nil => intro _ hne; exact absurd rfl hne
  | cons w rest ih =>
    intro h _
    obtain ⟨hwne, hwchars⟩ := h w (List.mem_cons_self _ _)
    cases rest with
    | nil =>
      have h1 : joinWords [w] = w ++ [] := by simp [joinWords_single]
      rw [h1, wordsAux_through_word w hwchars [] []]
      have hne' : (w.reverse ++ []).isEmpty = false := by
        simp [List.isEmpty_iff, hwne]
      simp [wordsAux, hne', List.isEmpty_iff, hwne]
    | cons r rest' =>
      rw [joinWords_cons2, wordsAux_through_word w hwchars [] (' ' :: joinWords (r :: rest'))]
      have hsp : (' ' : Char).isWhitespace = true := rfl
      have hstep : wordsAux (w.reverse ++ []) (' ' :: joinWords (r :: rest')) =
          (w.reverse ++ []).reverse :: wordsAux [] (joinWords (r :: rest')) := by
        simp [wordsAux, hsp, List.isEmpty_iff, hwne]
      rw [hstep, ih (fun x hx => h x (List.mem_cons_of_mem _ hx)) (List.cons_ne_nil _ _)]
      simp

/-- C10: for every company name built by joining one or more non-empty
whitespace-free words with spaces, `extractLetters` returns the uppercased
first character of a one-word name, and the concatenated uppercased first
characters of the first two words otherwise (later words are ignored;
single-character words work). -/
theorem c10_extract_letters (ws : List (List Char))
    (h : ∀ w ∈ ws, w ≠ [] ∧ ∀ ch ∈ w, ch.isWhitespace = false) (hne : ws ≠ []) :
    extractLetters (String.mk (joinWords ws)) = specLetters (ws.map String.mk) := by
  have htrim : jsTrim (String.mk (joinWords ws)) = String.mk (joinWords ws) := by
    unfold jsTrim
    show String.mk (trimChars (joinWords ws)) = String.mk (joinWords ws)
    rw [trim_joinWords ws h hne]
  obtain ⟨w, rest, rfl⟩ : ∃ w rest, ws = w :: rest := by
    cases ws with
    | nil => exact absurd rfl hne
    | cons w rest => exact ⟨w, rest, rfl⟩
  obtain ⟨hwne, hwchars⟩ := h w (List.mem_cons_self _ _)
  have hjne : (joinWords (w :: rest)).isEmpty = false := by
    cases rest with
    | nil => simp [joinWords_single, List.isEmpty_iff, hwne]
    | cons r rest' =>
      rw [joinWords_cons2]
      simp [List.isEmpty_iff, hwne]
  have hsplit : jsSplitWs (String.mk (joinWords (w :: rest))) = (w :: rest).map String.mk := by
    unfold jsSplitWs
    show (if (joinWords (w :: rest)).isEmpty then [""]
      else (wordsAux [] (joinWords (w :: rest))).map String.mk) = _
    rw [hjne, tokenize_joinWords (w :: rest) h hne]
    simp
  unfold extractLetters
  rw [htrim, hsplit]
  cases rest with
  | nil => simp [specLetters]
  | cons w1 rest' =>
    have h2 : (2 : Nat) ≤ rest'.length + 1 + 1 := by omega
    simp [specLetters, h2]

/-- C10 witness: the three documented examples. -/
theorem c10_extract_letters_witness :
    extractLetters "Design Rails" = "DR" ∧
    extractLetters "A B C" = "AB" ∧
    extractLetters "Acme" = "A" :=
  ⟨c10_extract_letters [['D','e','s','i','g','n'], ['R','a','i','l','s']]
      (by decide) (by decide),
   c10_extract_letters [['A'], ['B'], ['C']] (by decide) (by decide),
   c10_extract_letters [['A','c','m','e']] (by decide) (by decide)⟩

/-! ## C5: phase gating when no wordmark succeeds -/

theorem buildPhase1Requests_map_id (n : String) (c : LogoConcept) :
    (buildPhase1Requests n c).map (fun q => q.id) = phase1Ids := rfl

theorem buildPhase1Requests_map_type (n : String) (c : LogoConcept) :
    (buildPhase1Requests n c).map (fun q => q.type) =
      List.replicate 9 LogoArchetype.literal ++ List.replicate 3 LogoArchetype.wordmark := rfl

theorem phase1_type_cases (n : String) (c : LogoConcept) :
    ∀ q ∈ buildPhase1Requests n c, q.type = LogoArchetype.literal ∨ q.type = LogoArchetype.wordmark := by
  intro q hq
  have h := List.mem_map_of_mem (fun q => q.type) hq
  rw [buildPhase1Requests_map_type] at h
  simp [List.mem_append, List.mem_replicate] at h
  tauto

theorem phase1_id_mem (n : String) (c : LogoConcept) :
    ∀ q ∈ buildPhase1Requests n c, q.id ∈ phase1Ids := by
  intro q hq
  have h := List.mem_map_of_mem (fun q => q.id) hq
  rwa [buildPhase1Requests_map_id] at h

theorem phase1Ids_not_derived : ∀ s ∈ phase1Ids, s ∉ derivedLettermarkIds := by decide

theorem initialPlaceholders_map_id (n : String) (c : LogoConcept) :
    (initialPlaceholders n c).map (fun v => v.id) = phase1Ids ++ derivedLettermarkIds := rfl

theorem initialPlaceholders_url (n : String) (c : LogoConcept) :
    ∀ v ∈ initialPlaceholders n c, v.url = "" := by
  intro v hv
  unfold initialPlaceholders at hv
  rcases List.mem_append.mp hv with h | h <;>
    · rcases List.mem_map.mp h with ⟨x, _, rfl⟩
      rfl

theorem runPhase2Batches_map_id (env : GenEnv) :
    ∀ (bs : List (List LogoGenerationRequest)) (i : Nat) (vars : List LogoGenerationResult),
      ((runPhase2Batches env i vars bs).1).map (fun v => v.id) = vars.map (fun v => v.id) := by
  intro bs
  induction bs with
  | nil => intro i vars; rfl
  | cons b rest ih =>
    intro i vars
    cases h : env.phase2 i with
    | aborted => simp [runPhase2Batches, h]
    | httpError => simp [runPhase2Batches, h, ih]
    | ok rs =>
      simp only [runPhase2Batches, h]
      rw [ih (i + 1) (mergeResults withSuffixTreatment vars rs)]
      exact mergeResults_map_id withSuffixTreatment (fun r => rfl) rs vars

theorem runPhase2Batches_mem (env : GenEnv) :
    ∀ (bs : List (List LogoGenerationRequest)) (i : Nat) (vars : List LogoGenerationResult),
      ∀ v ∈ (runPhase2Batches env i vars bs).1,
        v ∈ vars ∨ ∃ j rs r, env.phase2 j = .ok rs ∧ r ∈ rs ∧ v = withSuffixTreatment r := by
  intro bs
  induction bs with
  | nil => intro i vars v hv; exact Or.inl hv
  | cons b rest ih =>
    intro i vars v hv
    cases h : env.phase2 i with
    | aborted => simp [runPhase2Batches, h] at hv; exact Or.inl hv
    | httpError =>
      simp only [runPhase2Batches, h] at hv
      exact ih (i + 1) vars v hv
    | ok rs =>
      simp only [runPhase2Batches, h] at hv
      rcases ih (i + 1) (mergeResults withSuffixTreatment vars rs) v hv with h' | h'
      · rcases mem_mergeResults withSuffixTreatment rs vars v h' with h'' | ⟨r, hr, rfl⟩
        · exact Or.inl h''
        · exact Or.inr ⟨i, rs, r, h, hr, rfl⟩
      · exact Or.inr h'

theorem runPhase2Batches_dispatched_mem (env : GenEnv) :
    ∀ (bs : List (List LogoGenerationRequest)) (i : Nat) (vars : List LogoGenerationResult),
      ∀ b ∈ (runPhase2Batches env i vars bs).2.1, b ∈ bs := by
  intro bs
  induction bs with
  | nil => intro i vars b hb; simp [runPhase2Batches] at hb
  | cons bb rest ih =>
    intro i vars b hb
    cases h : env.phase2 i with
    | aborted =>
      simp [runPhase2Batches, h] at hb
      simp [hb]
    | httpError =>
      simp only [runPhase2Batches, h] at hb
      rcases List.mem_cons.mp hb with rfl | hb'
      · exact List.mem_cons_self _ _
      · exact List.mem_cons_of_mem _ (ih (i + 1) vars b hb')
    | ok rs =>
      simp only [runPhase2Batches, h] at hb
      rcases List.mem_cons.mp hb with rfl | hb'
      · exact List.mem_cons_self _ _
      · exact List.mem_cons_of_mem _ (ih (i + 1) _ b hb')

theorem mem_chunkAux (n : Nat) :
    ∀ (fuel : Nat) (l : List α) (b : List α), b ∈ chunkAux fuel n l → ∀ q ∈ b, q ∈ l := by
  intro fuel
  induction fuel with
  | zero => intro l b hb; simp [chunkAux] at hb
  | succ f ih =>
    intro l b hb q hq
    cases l with
    | nil => simp [chunkAux] at hb
    | cons x xs =>
      simp only [chunkAux] at hb
      rcases List.mem_cons.mp hb with rfl | hb'
      · exact List.mem_of_mem_take hq
      · exact List.drop_subset _ _ (ih _ b hb' q hq)

theorem mem_chunkList {n : Nat} {l b : List α} (hb : b ∈ chunkList n l) :
    ∀ q ∈ b, q ∈ l :=
  mem_chunkAux n l.length l b hb

theorem mem_buildPhase2Requests (n : String) (c : LogoConcept) :
    ∀ (logos : List LogoGenerationResult) (q : LogoGenerationRequest),
      q ∈ buildPhase2Requests n c logos → ∃ b ∈ logos, q.type = b.type := by
  intro logos
  induction logos with
  | nil => intro q hq; simp [buildPhase2Requests] at hq
  | cons b rest ih =>
    intro q hq
    simp only [buildPhase2Requests] at hq
    rcases List.mem_append.mp hq with h | h
    · refine ⟨b, List.mem_cons_self _ _, ?_⟩
      simp only [phase2RequestsFor] at h
      rcases List.mem_cons.mp h with rfl | h'
      · rfl
      · rcases List.mem_cons.mp h' with rfl | h''
        · rfl
        · cases h''
    · obtain ⟨b', hb', ht⟩ := ih q h
      exact ⟨b', List.mem_cons_of_mem _ hb', ht⟩

theorem no_wordmark_find (results1 : List LogoGenerationResult)
    (hw : ∀ r ∈ results1, r.type = LogoArchetype.wordmark → r.url = "") :
    results1.find? (fun r => r.type == LogoArchetype.wordmark && r.url != "") = none := by
  rw [List.find?_eq_none]
  intro x hx hcontra
  simp only [Bool.and_eq_true, beq_iff_eq, bne_iff_ne] at hcontra
  exact hcontra.2 (hw x hx hcontra.1)

theorem gp2_empty (n : String) (c : LogoConcept) (env : GenEnv)
    (results1 dRes vars : List LogoGenerationResult)
    (d0 : List (List LogoGenerationRequest))
    (hemp : ((results1.filter (fun r => r.url != "")) ++ dRes).isEmpty = true) :
    generateLogosPhase2 n c env results1 dRes vars d0 =
      { step := .results, variations := vars, isGeneratingLogos := false, dispatched := d0 } := by
  unfold generateLogosPhase2
  simp [hemp]

theorem gp2_nonempty (n : String) (c : LogoConcept) (env : GenEnv)
    (results1 dRes vars : List LogoGenerationResult)
    (d0 : List (List LogoGenerationRequest))
    (hemp : ((results1.filter (fun r => r.url != "")) ++ dRes).isEmpty = false) :
    generateLogosPhase2 n c env results1 dRes vars d0 =
      { step := if (runPhase2Batches env 0
            (vars ++ (buildPhase2Requests n c (results1.filter (fun r => r.url != "") ++ dRes)).map
              phase2Placeholder)
            (chunkList 20 (buildPhase2Requests n c
              (results1.filter (fun r => r.url != "") ++ dRes)))).2.2
          then LogoCreationStep.generation else LogoCreationStep.results
        variations := (runPhase2Batches env 0
            (vars ++ (buildPhase2Requests n c (results1.filter (fun r => r.url != "") ++ dRes)).map
              phase2Placeholder)
            (chunkList 20 (buildPhase2Requests n c
              (results1.filter (fun r => r.url != "") ++ dRes)))).1
        isGeneratingLogos := false
        dispatched := d0 ++ (runPhase2Batches env 0
            (vars ++ (buildPhase2Requests n c (results1.filter (fun r => r.url != "") ++ dRes)).map
              phase2Placeholder)
            (chunkList 20 (buildPhase2Requests n c
              (results1.filter (fun r => r.url != "") ++ dRes)))).2.1 } := by
  unfold generateLogosPhase2
  simp [hemp]

/-- C5: when phase 1 produces zero successful wordmark results (and the
phase-1 response echoes the phase-1 request ids and archetypes, and phase-2
responses echo phase-2 ids), the derived-lettermark phase dispatches zero
requests — no batch ever carries a `lettermark-derived` request — and the
three lettermark-derived placeholders remain in the collection with empty
url; nothing errors. -/
theorem c5_no_wordmark_phase_gating (companyName : String) (concept : LogoConcept) (env : GenEnv)
    (results1 : List LogoGenerationResult)
    (h1 : env.phase1 = FetchOutcome.ok results1)
    (hcon : ∀ r ∈ results1, ∃ q ∈ buildPhase1Requests companyName concept,
      r.id = q.id ∧ r.type = q.type)
    (hw : ∀ r ∈ results1, r.type = LogoArchetype.wordmark → r.url = "")
    (hp2 : ∀ j rs, env.phase2 j = FetchOutcome.ok rs → ∀ r ∈ rs, r.id ∉ derivedLettermarkIds) :
    (∀ b ∈ (generateLogos companyName concept env).dispatched,
       ∀ q ∈ b, q.type ≠ LogoArchetype.lettermarkDerived) ∧
    (∀ d ∈ derivedLettermarkIds,
       ∃ v ∈ (generateLogos companyName concept env).variations, v.id = d) ∧
    (∀ v ∈ (generateLogos companyName concept env).variations,
       v.id ∈ derivedLettermarkIds → v.url = "") := by
  have hfind := no_wordmark_find results1 hw
  have hrun : generateLogos companyName concept env =
      generateLogosPhase2 companyName concept env results1 []
        (mergeResults withBlackTreatment (initialPlaceholders companyName concept) results1)
        [buildPhase1Requests companyName concept] := by
    simp [generateLogos, h1, hfind]
  have hresultsid : ∀ r ∈ results1, r.id ∉ derivedLettermarkIds := by
    intro r hr
    obtain ⟨q, hq, hid, _⟩ := hcon r hr
    rw [hid]
    exact phase1Ids_not_derived q.id (phase1_id_mem companyName concept q hq)
  have hrestype : ∀ r ∈ results1, r.type ≠ LogoArchetype.lettermarkDerived := by
    intro r hr
    obtain ⟨q, hq, _, hty⟩ := hcon r hr
    rw [hty]
    rcases phase1_type_cases companyName concept q hq with h | h <;> simp [h]
  have hvars1_id : (mergeResults withBlackTreatment (initialPlaceholders companyName concept)
      results1).map (fun v => v.id) = phase1Ids ++ derivedLettermarkIds := by
    rw [mergeResults_map_id withBlackTreatment (fun r => rfl) results1
      (initialPlaceholders companyName concept), initialPlaceholders_map_id]
  have hvars1_P : ∀ v ∈ mergeResults withBlackTreatment (initialPlaceholders companyName concept)
      results1, v.id ∈ derivedLettermarkIds → v.url = "" := by
    intro v hv hd
    rcases mem_mergeResults withBlackTreatment results1 (initialPlaceholders companyName concept)
        v hv with h | ⟨r, hr, rfl⟩
    · exact initialPlaceholders_url companyName concept v h
    · exact absurd hd (hresultsid r hr)
  have hphase1_not_derived : ∀ q ∈ buildPhase1Requests companyName concept,
      q.type ≠ LogoArchetype.lettermarkDerived := by
    intro q hq
    rcases phase1_type_cases companyName concept q hq with h | h <;> simp [h]
  rw [hrun]
  by_cases hemp : ((results1.filter (fun r => r.url != "")) ++
      ([] : List LogoGenerationResult)).isEmpty = true
  · rw [gp2_empty companyName concept env results1 []
      (mergeResults withBlackTreatment (initialPlaceholders companyName concept) results1)
      [buildPhase1Requests companyName concept] hemp]
    refine ⟨?_, ?_, ?_⟩
    · intro b hb q hq
      have hb' : b = buildPhase1Requests companyName concept := by simpa using hb
      subst hb'
      exact hphase1_not_derived q hq
    · intro d hd
      have hmem : d ∈ (mergeResults withBlackTreatment
          (initialPlaceholders companyName concept) results1).map (fun v => v.id) := by
        rw [hvars1_id]
        exact List.mem_append_right _ hd
      rcases List.mem_map.mp hmem with ⟨v, hv, rfl⟩
      exact ⟨v, hv, rfl⟩
    · intro v hv hd
      exact hvars1_P v hv hd
  · have hemp' : ((results1.filter (fun r => r.url != "")) ++
        ([] : List LogoGenerationResult)).isEmpty = false := by
      revert hemp
      cases ((results1.filter (fun r => r.url != "")) ++
        ([] : List LogoGenerationResult)).isEmpty <;> simp
    rw [gp2_nonempty companyName concept env results1 []
      (mergeResults withBlackTreatment (initialPlaceholders companyName concept) results1)
      [buildPhase1Requests companyName concept] hemp']
    refine ⟨?_, ?_, ?_⟩
    · intro b hb q hq
      rcases List.mem_append.mp hb with h | h
      · have hb' : b = buildPhase1Requests companyName concept := by simpa using h
        subst hb'
        exact hphase1_not_derived q hq
      · have hbb := runPhase2Batches_dispatched_mem env _ 0 _ b h
        have hqreq : q ∈ buildPhase2Requests companyName concept
            (results1.filter (fun r => r.url != "") ++ []) := mem_chunkList hbb q hq
        obtain ⟨blk, hblk, hty⟩ := mem_buildPhase2Requests companyName concept _ q hqreq
        rw [hty]
        have hblk' : blk ∈ results1 := by
          rcases List.mem_append.mp hblk with h' | h'
          · exact List.mem_of_mem_filter h'
          · cases h'
        exact hrestype blk hblk'
    · intro d hd
      have hid2 := runPhase2Batches_map_id env
        (chunkList 20 (buildPhase2Requests companyName concept
          (results1.filter (fun r => r.url != "") ++ []))) 0
        (mergeResults withBlackTreatment (initialPlaceholders companyName concept) results1 ++
          (buildPhase2Requests companyName concept
            (results1.filter (fun r => r.url != "") ++ [])).map phase2Placeholder)
      have hmem : d ∈ ((runPhase2Batches env 0
          (mergeResults withBlackTreatment (initialPlaceholders companyName concept) results1 ++
            (buildPhase2Requests companyName concept
              (results1.filter (fun r => r.url != "") ++ [])).map phase2Placeholder)
          (chunkList 20 (buildPhase2Requests companyName concept
            (results1.filter (fun r => r.url != "") ++ [])))).1).map (fun v => v.id) := by
        rw [hid2, List.map_append, hvars1_id]
        exact List.mem_append_left _ (List.mem_append_right _ hd)
      rcases List.mem_map.mp hmem with ⟨v, hv, rfl⟩
      exact ⟨v, hv, rfl⟩
    · intro v hv hd
      rcases runPhase2Batches_mem env _ 0 _ v hv with h | ⟨j, rs, r, hok, hr, rfl⟩
      · rcases List.mem_append.mp h with h' | h'
        · exact hvars1_P v h' hd
        · rcases List.mem_map.mp h' with ⟨q, _, rfl⟩
          rfl
      · exact absurd hd (hp2 j rs hok r hr)


/-- C5 witness: a run whose phase 1 returns no successful wordmark. -/
theorem c5_no_wordmark_phase_gating_witness :
    (envNoWordmark.phase1 = FetchOutcome.ok []) ∧
    ((∀ b ∈ (generateLogos "Acme" conceptEx envNoWordmark).dispatched,
        ∀ q ∈ b, q.type ≠ LogoArchetype.lettermarkDerived) ∧
     (∀ d ∈ derivedLettermarkIds,
        ∃ v ∈ (generateLogos "Acme" conceptEx envNoWordmark).variations, v.id = d) ∧
     (∀ v ∈ (generateLogos "Acme" conceptEx envNoWordmark).variations,
        v.id ∈ derivedLettermarkIds → v.url = "")) :=
  ⟨rfl, c5_no_wordmark_phase_gating "Acme" conceptEx envNoWordmark [] rfl
    (by simp) (by simp) (by intro j rs h; simp [envNoWordmark] at h)⟩

end LogoCreator